import Mathlib

/-!
Verification of the pointer-driven area-selection / drag-and-drop engines of
the disknext front-end (`useAreaSelection` and `useFileDragDrop`).

Coordinates are modelled as rationals (the source uses JS numbers; every
operation the engines perform on them is exact: additions, subtractions,
comparisons, `min`/`max`).  The DOM is modelled by explicit environment
records carrying the results of the DOM queries the handlers make
(`getBoundingClientRect`, `querySelectorAll`, `elementFromPoint`,
`closest`, `contains`), and the closure state of each composable is an
explicit state record threaded through the event handlers.
-/

/-- `{x, y}` coordinate in container-local scroll space
(`interface Coordinates`, useAreaSelection.ts). -/
structure Coordinates where
  x : ℚ
  y : ℚ
deriving DecidableEq

/-- One selectable row's cached geometry
(`interface Candidate`, useAreaSelection.ts). -/
structure Candidate where
  index : Nat
  x : ℚ
  y : ℚ
  bottom : ℚ
  right : ℚ
deriving DecidableEq

/-- A measured client rectangle (result of `getBoundingClientRect`).
`x`/`y` are the left/top edges. -/
structure DOMRectM where
  x : ℚ
  y : ℚ
  right : ℚ
  bottom : ℚ
deriving DecidableEq

/-- `document.body.style` fields the engines touch. -/
structure BodyStyle where
  cursor : String
  userSelect : String
deriving DecidableEq

/-- The `list[mid][0].y` access of the binary searches: the top `y` of a
candidate row (the row's first candidate's `y`).  Rows built by
`updateCandidates` are never empty; the default covers the out-of-bounds
`getD` access only. -/
def rowY (r : List Candidate) : ℚ :=
  match r with
  | [] => 0
  | c :: _ => c.y

/-- The shared `while (start <= end)` loop of `binarySearchTop` /
`binarySearchBottom` (useAreaSelection.ts lines 23-43).  The two sources
differ only in the comparison (`<` vs `<=`), selected by `strict`.
`start` stays a natural number; `end` (here `e`) can reach `-1`, exactly
as in the source.  `mid = Math.floor((start + end) / 2)` is Nat division
because in the loop `0 <= start <= end`. -/
def bsGo (strict : Bool) (list : List (List Candidate)) (target : ℚ)
    (start : Nat) (e : Int) : Int :=
  if h : (start : Int) ≤ e then
    let mid : Nat := (start + e.toNat) / 2
    if (if strict then rowY (list.getD mid []) < target
        else rowY (list.getD mid []) ≤ target) then
      bsGo strict list target (mid + 1) e
    else
      bsGo strict list target start ((mid : Int) - 1)
  else e
termination_by (e + 1 - (start : Int)).toNat
decreasing_by
  · omega
  · omega

/-- `binarySearchTop`: index of the last row whose top `y < target`
(returns `-1` when there is none). -/
def binarySearchTop (list : List (List Candidate)) (target : ℚ) : Int :=
  bsGo true list target 0 ((list.length : Int) - 1)

/-- `binarySearchBottom`: index of the last row whose top `y <= target`
(returns `-1` when there is none). -/
def binarySearchBottom (list : List (List Candidate)) (target : ℚ) : Int :=
  bsGo false list target 0 ((list.length : Int) - 1)

/-- The inner loop of `processSelection` over one candidate row
(useAreaSelection.ts lines 157-164): AABB test
`!(el.x > endX || el.right < startX || el.y > endY || el.bottom < startY)`
followed by the `el.index < itemCount` guard. -/
def rowHits (itemCount : Nat) (startX startY endX endY : ℚ) :
    List Candidate → List Nat
  | [] => []
  | c :: cs =>
    (if ¬(c.x > endX ∨ c.right < startX ∨ c.y > endY ∨ c.bottom < startY) then
      (if c.index < itemCount then [c.index] else [])
    else []) ++ rowHits itemCount startX startY endX endY cs

/-- Concatenation of the per-row hit lists, in row order (the outer
`for i` loop body of `processSelection`). -/
def flatMapRows (f : List Candidate → List Nat) :
    List (List Candidate) → List Nat
  | [] => []
  | r :: rs => f r ++ flatMapRows f rs

/-- The index computation of `processSelection`
(useAreaSelection.ts lines 143-165): normalize the drag rectangle with
`min`/`max`, return early when there are no candidates, narrow the row
range with the two binary searches, then scan rows `top..bottom`
(`(cands.drop top).take (bottom + 1 - top)` is the row slice the
`for (let i = top; i <= bottom; i++)` loop visits: `bottom` never exceeds
`cands.length - 1`). -/
def processSelection (cands : List (List Candidate)) (itemCount : Nat)
    (a b : Coordinates) : List Nat :=
  let startX := min a.x b.x
  let startY := min a.y b.y
  let endX := max a.x b.x
  let endY := max a.y b.y
  if cands = [] then []
  else
    let top : Nat := (max 0 (binarySearchTop cands startY)).toNat
    let bottom : Int := binarySearchBottom cands endY
    flatMapRows (rowHits itemCount startX startY endX endY)
      ((cands.drop top).take (bottom + 1 - (top : Int)).toNat)

/-- The brute-force O(N) reference scan the spec compares against
(spec §8, property 4): every candidate of every row is tested with the
same AABB predicate and the same `index < itemCount` guard, same
rectangle normalization.  This definition follows the spec's words; it is
the comparison point for the refinement claim. -/
def bruteForceSelection (cands : List (List Candidate)) (itemCount : Nat)
    (a b : Coordinates) : List Nat :=
  flatMapRows
    (rowHits itemCount (min a.x b.x) (min a.y b.y) (max a.x b.x) (max a.y b.y))
    cands

/-- Candidate construction from one measured row rectangle
(useAreaSelection.ts lines 116-125): container-local, scroll-adjusted. -/
def mkCandidate (containerBox : DOMRectM) (scrollTop : ℚ) (i : Nat)
    (rect : DOMRectM) : Candidate :=
  { index := i
    x := rect.x - containerBox.x
    y := scrollTop + rect.y - containerBox.y
    bottom := scrollTop + rect.bottom - containerBox.y
    right := rect.right - containerBox.x }

/-- The `for` loop of `updateCandidates`
(src/src/composables/useAreaSelection.ts lines 115-127): each measured
row element becomes one candidate with `index = i` (its DOM position),
pushed as its own single-candidate row. -/
def ucGo (containerBox : DOMRectM) (scrollTop : ℚ) :
    Nat → List DOMRectM → List (List Candidate)
  | _, [] => []
  | i, rect :: rects =>
    [mkCandidate containerBox scrollTop i rect] ::
      ucGo containerBox scrollTop (i + 1) rects

/-- `updateCandidates` (src/src/composables/useAreaSelection.ts
lines 109-129). -/
def updateCandidates (containerBox : DOMRectM) (scrollTop : ℚ)
    (rects : List DOMRectM) : List (List Candidate) :=
  ucGo containerBox scrollTop 0 rects

/-! ### Characterization of the binary searches -/

/-- The loop invariant of `bsGo`: when the rows satisfying the comparison
form the prefix `[0, k)` and `k` lies in the live interval
`[start, e + 1]`, the loop converges to `k - 1`. -/
lemma bsGo_eq (strict : Bool) (list : List (List Candidate)) (target : ℚ)
    (k : Nat)
    (hp : ∀ i, i < list.length →
      ((if strict then rowY (list.getD i []) < target
        else rowY (list.getD i []) ≤ target) ↔ i < k)) :
    ∀ (n start : Nat) (e : Int), (e + 1 - (start : Int)).toNat ≤ n →
      start ≤ k → (k : Int) ≤ e + 1 → e ≤ (list.length : Int) - 1 →
      bsGo strict list target start e = (k : Int) - 1 := by
  intro n
  induction n with
  | zero =>
    intro start e hm h1 h2 h3
    rw [bsGo, dif_neg (by omega : ¬((start : Int) ≤ e))]
    omega
  | succ n ih =>
    intro start e hm h1 h2 h3
    rw [bsGo]
    by_cases hse : (start : Int) ≤ e
    · rw [dif_pos hse]
      have hmlo : start ≤ (start + e.toNat) / 2 := by omega
      have hmhi : (((start + e.toNat) / 2 : Nat) : Int) ≤ e := by omega
      have hlen : (start + e.toNat) / 2 < list.length := by omega
      by_cases hc : (if strict then
          rowY (list.getD ((start + e.toNat) / 2) []) < target
        else rowY (list.getD ((start + e.toNat) / 2) []) ≤ target)
      · rw [if_pos hc]
        have hk : (start + e.toNat) / 2 < k := (hp _ hlen).mp hc
        exact ih _ _ (by omega) (by omega) h2 h3
      · rw [if_neg hc]
        have hk : k ≤ (start + e.toNat) / 2 := by
          by_contra hlt
          exact hc ((hp _ hlen).mpr (by omega))
        exact ih _ _ (by omega) h1 (by omega) (by omega)
    · rw [dif_neg hse]
      omega

/-- With the rows whose top `y < target` forming the prefix `[0, k)`,
`binarySearchTop` returns `k - 1`. -/
lemma binarySearchTop_eq (list : List (List Candidate)) (target : ℚ)
    (k : Nat) (hk : k ≤ list.length)
    (hp : ∀ i, i < list.length → (rowY (list.getD i []) < target ↔ i < k)) :
    binarySearchTop list target = (k : Int) - 1 := by
  unfold binarySearchTop
  exact bsGo_eq true list target k (by intro i hi; simpa using hp i hi)
    list.length 0 _ (by omega) (by omega) (by omega) (by omega)

/-- With the rows whose top `y ≤ target` forming the prefix `[0, k)`,
`binarySearchBottom` returns `k - 1`. -/
lemma binarySearchBottom_eq (list : List (List Candidate)) (target : ℚ)
    (k : Nat) (hk : k ≤ list.length)
    (hp : ∀ i, i < list.length → (rowY (list.getD i []) ≤ target ↔ i < k)) :
    binarySearchBottom list target = (k : Int) - 1 := by
  unfold binarySearchBottom
  exact bsGo_eq false list target k (by intro i hi; simpa using hp i hi)
    list.length 0 _ (by omega) (by omega) (by omega) (by omega)

/-- In a row list sorted ascending by first-candidate `y`, the rows
satisfying a downward-closed predicate on `rowY` form a prefix. -/
lemma sortedPartition (P : ℚ → Prop) [DecidablePred P]
    (hmono : ∀ a b : ℚ, a ≤ b → P b → P a) :
    ∀ (l : List (List Candidate)),
      l.Pairwise (fun r₁ r₂ => rowY r₁ ≤ rowY r₂) →
      ∃ k, k ≤ l.length ∧
        ∀ i, i < l.length → (P (rowY (l.getD i [])) ↔ i < k) := by
  intro l
  induction l with
  | nil => exact fun _ => ⟨0, by simp⟩
  | cons r rs ih =>
    intro hp
    obtain ⟨hhead, htail⟩ := List.pairwise_cons.mp hp
    obtain ⟨k, hk, hiff⟩ := ih htail
    by_cases hr : P (rowY r)
    · refine ⟨k + 1, by simpa using hk, ?_⟩
      intro i hi
      match i with
      | 0 => simpa using hr
      | i + 1 =>
        have hkk := hiff i (by simpa using hi)
        show P (rowY (rs.getD i [])) ↔ i + 1 < k + 1
        exact ⟨fun h => Nat.succ_lt_succ (hkk.mp h),
               fun h => hkk.mpr (Nat.lt_of_succ_lt_succ h)⟩
    · refine ⟨0, Nat.zero_le _, ?_⟩
      intro i hi
      simp only [Nat.not_lt_zero, iff_false]
      match i with
      | 0 => simpa using hr
      | i + 1 =>
        intro hPi
        have hmem : rs.getD i [] ∈ rs := by
          rw [List.getD_eq_getElem _ _ (by simpa using hi)]
          exact List.getElem_mem _
        exact hr (hmono _ _ (hhead _ hmem) (by simpa using hPi))

/-! ### Row-slice lemmas for the narrowed scan -/

/-- If every row of `l` (by position) contributes nothing, the whole scan
is empty. -/
lemma flatMapRows_eq_nil (f : List Candidate → List Nat) :
    ∀ (l : List (List Candidate)),
      (∀ i, i < l.length → f (l.getD i []) = []) → flatMapRows f l = [] := by
  intro l
  induction l with
  | nil => intro _; rfl
  | cons r rs ih =>
    intro h
    show f r ++ flatMapRows f rs = []
    rw [show f r = [] from h 0 (by simp), List.nil_append]
    exact ih fun i hi => h (i + 1) (by simpa using hi)

/-- Scanning only the row slice `[t, t+m)` agrees with scanning every row
when the rows outside the slice contribute nothing. -/
lemma flatMapRows_slice (f : List Candidate → List Nat) :
    ∀ (l : List (List Candidate)) (t m : Nat),
      (∀ i, i < t → i < l.length → f (l.getD i []) = []) →
      (∀ i, t + m ≤ i → i < l.length → f (l.getD i []) = []) →
      flatMapRows f ((l.drop t).take m) = flatMapRows f l := by
  intro l
  induction l with
  | nil => intro t m _ _; simp
  | cons r rs ih =>
    intro t m hpre hpost
    match t with
    | 0 =>
      match m with
      | 0 =>
        exact (flatMapRows_eq_nil f (r :: rs)
          (fun i hi => hpost i (by omega) hi)).symm
      | m + 1 =>
        show f r ++ flatMapRows f (rs.take m) = f r ++ flatMapRows f rs
        have := ih 0 m (fun i hi _ => by omega)
          (fun i hi hil => hpost (i + 1) (by omega) (by simpa using hil))
        simpa using congrArg (f r ++ ·) this
    | t + 1 =>
      show flatMapRows f ((rs.drop t).take m) = f r ++ flatMapRows f rs
      rw [show f r = [] from hpre 0 (by omega) (by simp), List.nil_append]
      exact ih t m
        (fun i hi hil => hpre (i + 1) (by omega) (by simpa using hil))
        (fun i hi hil => hpost (i + 1) (by omega) (by simpa using hil))

/-- A row all of whose candidates end above the rectangle contributes no
hit (`el.bottom < startY` fails the AABB test). -/
lemma rowHits_eq_nil_below (n : Nat) (sx sy ex ey : ℚ) :
    ∀ (r : List Candidate), (∀ c ∈ r, c.bottom < sy) →
      rowHits n sx sy ex ey r = [] := by
  intro r
  induction r with
  | nil => intro _; rfl
  | cons c cs ih =>
    intro h
    show (if ¬(c.x > ex ∨ c.right < sx ∨ c.y > ey ∨ c.bottom < sy) then
        (if c.index < n then [c.index] else []) else []) ++
        rowHits n sx sy ex ey cs = []
    rw [if_neg (fun hn => hn (Or.inr (Or.inr (Or.inr (h c (by simp))))))]
    rw [List.nil_append]
    exact ih fun d hd => h d (by simp [hd])

/-- A row all of whose candidates start below the rectangle contributes no
hit (`el.y > endY` fails the AABB test). -/
lemma rowHits_eq_nil_above (n : Nat) (sx sy ex ey : ℚ) :
    ∀ (r : List Candidate), (∀ c ∈ r, ey < c.y) →
      rowHits n sx sy ex ey r = [] := by
  intro r
  induction r with
  | nil => intro _; rfl
  | cons c cs ih =>
    intro h
    show (if ¬(c.x > ex ∨ c.right < sx ∨ c.y > ey ∨ c.bottom < sy) then
        (if c.index < n then [c.index] else []) else []) ++
        rowHits n sx sy ex ey cs = []
    rw [if_neg (fun hn => hn (Or.inr (Or.inr (Or.inl (h c (by simp))))))]
    rw [List.nil_append]
    exact ih fun d hd => h d (by simp [hd])

/-- In a sorted row list, `rowY` is monotone in the position. -/
lemma rowY_mono (cands : List (List Candidate))
    (hsorted : cands.Pairwise (fun r₁ r₂ => rowY r₁ ≤ rowY r₂))
    (i j : Nat) (hi : i < cands.length) (hj : j < cands.length)
    (hij : i ≤ j) : rowY cands[i] ≤ rowY cands[j] := by
  rcases Nat.lt_or_ge i j with hlt | hge
  · exact List.pairwise_iff_getElem.mp hsorted i j hi hj hlt
  · have : i = j := by omega
    subst this
    exact le_refl _

/-- Core equivalence of the narrowed scan with the brute-force scan, under
the geometric side conditions that actually make the narrowing sound:
rows sorted ascending by their first candidate's `y`, candidates aligned
with their row's first `y`, and vertically non-overlapping consecutive
rows. -/
lemma narrowedScan_eq_bruteForce
    (cands : List (List Candidate)) (itemCount : Nat) (a b : Coordinates)
    (hsorted : cands.Pairwise (fun r₁ r₂ => rowY r₁ ≤ rowY r₂))
    (haligned : ∀ r ∈ cands, ∀ c ∈ r, c.y = rowY r)
    (hdisjoint : cands.Chain' (fun r₁ r₂ => ∀ c ∈ r₁, c.bottom ≤ rowY r₂)) :
    processSelection cands itemCount a b =
      bruteForceSelection cands itemCount a b := by
  by_cases hnil : cands = []
  · subst hnil; rfl
  · obtain ⟨k₁, hk₁, hp₁⟩ :=
      sortedPartition (fun q => q < min a.y b.y)
        (fun p q hpq h => lt_of_le_of_lt hpq h) cands hsorted
    obtain ⟨k₂, hk₂, hp₂⟩ :=
      sortedPartition (fun q => q ≤ max a.y b.y)
        (fun p q hpq h => le_trans hpq h) cands hsorted
    have hT := binarySearchTop_eq cands (min a.y b.y) k₁ hk₁ hp₁
    have hB := binarySearchBottom_eq cands (max a.y b.y) k₂ hk₂ hp₂
    simp only [processSelection, bruteForceSelection, if_neg hnil, hT, hB]
    apply flatMapRows_slice
    · -- rows strictly before the scanned slice: every candidate ends
      -- above `startY`
      intro i hit hil
      have hit' : i < k₁ - 1 := by omega
      have htlt : k₁ - 1 < cands.length := by omega
      apply rowHits_eq_nil_below
      intro c hc
      -- c.bottom ≤ rowY (row (i+1))
      have hchain := List.chain'_iff_get.mp hdisjoint i (by omega)
      rw [List.getD_eq_getElem _ _ hil] at hc
      have hstep : c.bottom ≤ rowY (cands.get ⟨i + 1, by omega⟩) := by
        exact hchain c (by simpa using hc)
      -- rowY (row (i+1)) ≤ rowY (row (k₁ - 1))
      have hmono : rowY (cands.get ⟨i + 1, by omega⟩) ≤
          rowY (cands.getD (k₁ - 1) []) := by
        rw [List.getD_eq_getElem _ _ htlt, List.get_eq_getElem]
        exact rowY_mono cands hsorted (i + 1) (k₁ - 1) (by omega) htlt
          (by omega)
      -- rowY (row (k₁ - 1)) < startY
      have hlast : rowY (cands.getD (k₁ - 1) []) < min a.y b.y :=
        (hp₁ (k₁ - 1) htlt).mpr (by omega)
      exact lt_of_le_of_lt (le_trans hstep hmono) hlast
    · -- rows strictly after the scanned slice: every candidate starts
      -- below `endY`
      intro i hge hil
      have hki : k₂ ≤ i := by omega
      apply rowHits_eq_nil_above
      intro c hc
      have hmem : cands.getD i [] ∈ cands := by
        rw [List.getD_eq_getElem _ _ hil]
        exact List.getElem_mem _
      have hyc : c.y = rowY (cands.getD i []) := haligned _ hmem c hc
      have : ¬(rowY (cands.getD i []) ≤ max a.y b.y) := fun h =>
        absurd ((hp₂ i hil).mp h) (by omega)
      rw [hyc]
      exact lt_of_not_le this

/-! ### Closed-form evaluation and concrete scenarios -/

/-- Unfolds `processSelection` once the two binary-search results are
known, so that concrete instances can be computed. -/
lemma processSelection_closed (cands : List (List Candidate))
    (itemCount : Nat) (a b : Coordinates) (t bt : Int)
    (hT : binarySearchTop cands (min a.y b.y) = t)
    (hB : binarySearchBottom cands (max a.y b.y) = bt) :
    processSelection cands itemCount a b =
      (if cands = [] then []
       else flatMapRows
         (rowHits itemCount (min a.x b.x) (min a.y b.y)
           (max a.x b.x) (max a.y b.y))
         ((cands.drop (max 0 t).toNat).take
           (bt + 1 - ((max 0 t).toNat : Int)).toNat)) := by
  subst hT hB
  rfl

/-- The spec's end-to-end scenario (§8, property 9): five rows at
y-offsets 0, 30, 60, 90, 120, height 25, spanning x = 0..100. -/
def demoRows : List (List Candidate) :=
  [[⟨0, 0, 0, 25, 100⟩], [⟨1, 0, 30, 55, 100⟩], [⟨2, 0, 60, 85, 100⟩],
   [⟨3, 0, 90, 115, 100⟩], [⟨4, 0, 120, 145, 100⟩]]

/-- Concrete evaluation of the end-to-end scenario: the drag rectangle
`(10,10)-(10,95)` selects rows 0..3. -/
lemma processSelection_demo :
    processSelection demoRows 5 ⟨10, 10⟩ ⟨10, 95⟩ = [0, 1, 2, 3] := by
  rw [processSelection_closed demoRows 5 ⟨10, 10⟩ ⟨10, 95⟩
    (((1 : Nat) : Int) - 1) (((4 : Nat) : Int) - 1)
    (by
      rw [show min (Coordinates.mk 10 10).y (Coordinates.mk 10 95).y =
        (10 : ℚ) by decide]
      exact binarySearchTop_eq demoRows 10 1 (by decide) (by decide))
    (by
      rw [show max (Coordinates.mk 10 10).y (Coordinates.mk 10 95).y =
        (95 : ℚ) by decide]
      exact binarySearchBottom_eq demoRows 95 4 (by decide) (by decide))]
  decide

/-- A sorted candidate-row list on which the binary-search narrowing is
unsound: the first row is much taller than the rows below it, so its
candidate still intersects a rectangle that starts below the second
row's top. -/
def overlapRows : List (List Candidate) :=
  [[⟨0, 0, 0, 100, 10⟩], [⟨1, 0, 10, 11, 10⟩], [⟨2, 0, 20, 21, 10⟩]]

/-- On `overlapRows` with rectangle `(0,15)-(10,16)`, the narrowed scan
finds nothing: `binarySearchTop` starts the scan at row 1 and row 0 (the
only intersecting row) is skipped. -/
lemma processSelection_overlap :
    processSelection overlapRows 3 ⟨0, 15⟩ ⟨10, 16⟩ = [] := by
  rw [processSelection_closed overlapRows 3 ⟨0, 15⟩ ⟨10, 16⟩
    (((2 : Nat) : Int) - 1) (((2 : Nat) : Int) - 1)
    (by
      rw [show min (Coordinates.mk 0 15).y (Coordinates.mk 10 16).y =
        (15 : ℚ) by decide]
      exact binarySearchTop_eq overlapRows 15 2 (by decide) (by decide))
    (by
      rw [show max (Coordinates.mk 0 15).y (Coordinates.mk 10 16).y =
        (16 : ℚ) by decide]
      exact binarySearchBottom_eq overlapRows 16 2 (by decide) (by decide))]
  decide

/-! ### Membership and order of the emitted indices -/

/-- Every index appearing in a row scan passed the
`el.index < itemCount` guard. -/
lemma rowHits_mem_lt (n : Nat) (sx sy ex ey : ℚ) :
    ∀ (r : List Candidate) (i : Nat),
      i ∈ rowHits n sx sy ex ey r → i < n := by
  intro r
  induction r with
  | nil => intro i hi; simp [rowHits] at hi
  | cons c cs ih =>
    intro i hi
    simp only [rowHits] at hi
    rcases List.mem_append.mp hi with h | h
    · by_cases h1 : ¬(c.x > ex ∨ c.right < sx ∨ c.y > ey ∨ c.bottom < sy)
      · rw [if_pos h1] at h
        by_cases h2 : c.index < n
        · rw [if_pos h2] at h
          rw [List.mem_singleton.mp h]
          exact h2
        · rw [if_neg h2] at h
          simp at h
      · rw [if_neg h1] at h
        simp at h
    · exact ih i h

/-- Every index appearing in a full selection scan is `< itemCount`. -/
lemma flatMapRows_rowHits_lt (n : Nat) (sx sy ex ey : ℚ) :
    ∀ (l : List (List Candidate)) (i : Nat),
      i ∈ flatMapRows (rowHits n sx sy ex ey) l → i < n := by
  intro l
  induction l with
  | nil => intro i hi; simp [flatMapRows] at hi
  | cons r rs ih =>
    intro i hi
    rcases List.mem_append.mp hi with h | h
    · exact rowHits_mem_lt n sx sy ex ey r i h
    · exact ih i h

/-- The hits of a row are a sublist of the row's indices in order. -/
lemma rowHits_sublist_index (n : Nat) (sx sy ex ey : ℚ) :
    ∀ (r : List Candidate),
      List.Sublist (rowHits n sx sy ex ey r) (r.map Candidate.index) := by
  intro r
  induction r with
  | nil => exact List.Sublist.refl _
  | cons c cs ih =>
    show List.Sublist
      ((if ¬(c.x > ex ∨ c.right < sx ∨ c.y > ey ∨ c.bottom < sy) then
          (if c.index < n then [c.index] else [])
        else []) ++ rowHits n sx sy ex ey cs)
      (c.index :: cs.map Candidate.index)
    by_cases h1 : ¬(c.x > ex ∨ c.right < sx ∨ c.y > ey ∨ c.bottom < sy)
    · rw [if_pos h1]
      by_cases h2 : c.index < n
      · rw [if_pos h2]
        exact ih.cons₂ c.index
      · rw [if_neg h2, List.nil_append]
        exact ih.cons c.index
    · rw [if_neg h1, List.nil_append]
      exact ih.cons c.index

/-- Pointwise sublists lift to the row concatenation. -/
lemma flatMapRows_sublist_mono (f g : List Candidate → List Nat)
    (h : ∀ r, List.Sublist (f r) (g r)) :
    ∀ (l : List (List Candidate)),
      List.Sublist (flatMapRows f l) (flatMapRows g l) := by
  intro l
  induction l with
  | nil => exact List.Sublist.refl _
  | cons r rs ih => exact (h r).append ih

/-- The row concatenation is monotone in the row list. -/
lemma flatMapRows_sublist_rows (g : List Candidate → List Nat) :
    ∀ {l₁ l₂ : List (List Candidate)}, List.Sublist l₁ l₂ →
      List.Sublist (flatMapRows g l₁) (flatMapRows g l₂) := by
  intro l₁ l₂ h
  induction h with
  | slnil => exact List.Sublist.refl _
  | cons a _ ih => exact ih.trans (List.sublist_append_right _ _)
  | cons₂ a _ ih => exact ih.append_left _

/-- The indices of the candidates built by `updateCandidates`, flattened
in row order, are exactly `i, i+1, ...` (one candidate per DOM element,
`index` = DOM position). -/
lemma ucGo_flat_index (containerBox : DOMRectM) (scrollTop : ℚ) :
    ∀ (rects : List DOMRectM) (i : Nat),
      flatMapRows (fun r => r.map Candidate.index)
        (ucGo containerBox scrollTop i rects) =
        List.range' i rects.length := by
  intro rects
  induction rects with
  | nil => intro i; rfl
  | cons rect rects ih =>
    intro i
    show [(mkCandidate containerBox scrollTop i rect).index] ++
        flatMapRows (fun r => r.map Candidate.index)
          (ucGo containerBox scrollTop (i + 1) rects) =
      List.range' i (rects.length + 1)
    rw [ih (i + 1)]
    rfl

/-! ### The stateful AreaSelectionEngine (useAreaSelection, part with
`canDrag` and row grouping) -/

/-- The row-grouping loop of the grouped `updateCandidates` variant:
candidates whose `y` is within 1px of the current group's first `y`
(`lastY` is only updated when a new group starts) join the current visual
row. -/
def groupGo (cur : List Candidate) (lastY : ℚ) :
    List Candidate → List (List Candidate)
  | [] => [cur]
  | c :: cs =>
    if |c.y - lastY| < 1 then groupGo (cur ++ [c]) lastY cs
    else cur :: groupGo [c] c.y cs

/-- Plain indexed candidate construction (the body of the measurement
loop, before grouping). -/
def mkCandidates (containerBox : DOMRectM) (scrollTop : ℚ) :
    Nat → List DOMRectM → List Candidate
  | _, [] => []
  | i, rect :: rects =>
    mkCandidate containerBox scrollTop i rect ::
      mkCandidates containerBox scrollTop (i + 1) rects

/-- The grouped `updateCandidates` variant (the `useAreaSelection` file
that also carries the `canDrag` option): same measurement as
`updateCandidates`, but consecutive candidates within 1px of the group's
first `y` share one visual row. -/
def updateCandidatesGrouped (containerBox : DOMRectM) (scrollTop : ℚ)
    (rects : List DOMRectM) : List (List Candidate) :=
  match mkCandidates containerBox scrollTop 0 rects with
  | [] => []
  | c :: cs => groupGo [c] c.y cs

/-- The data of a `mousedown` event as `onMouseDown` inspects it: the
button, whether `target.closest('button, a, input, [role="checkbox"],
[role="menuitem"]')` found an interactive control, whether the container
exists and contains the target, and the value of the optional
`options.canDrag?.(target)` call (`none` = no `canDrag` supplied,
matching the undefined result of the optional call). -/
structure AreaMouseDown where
  button : Nat
  targetInteractive : Bool
  targetInContainer : Bool
  canDragResult : Option Bool
  clientX : ℚ
  clientY : ℚ
deriving DecidableEq

/-- The data of a document-level `mousemove` event. -/
structure AreaMove where
  buttons : Nat
  clientX : ℚ
  clientY : ℚ
  ctrlKey : Bool
  metaKey : Bool
deriving DecidableEq

/-- The reactive/DOM environment an area-selection handler reads:
`options.enabled`, `itemCount`, whether `containerRef.value` is non-null,
the container's bounding rect and `scrollLeft`, the measured row rects,
and the scroll ancestor's rect used for edge auto-scroll. -/
structure AreaEnv where
  enabled : Bool
  itemCount : Nat
  containerPresent : Bool
  containerBox : DOMRectM
  scrollLeft : ℚ
  measuredRects : List DOMRectM
  scrollRect : DOMRectM
deriving DecidableEq

/-- The closure state of one `useAreaSelection` instance plus the pieces
of the document it owns: the two document listeners (attached and removed
together), the floating box node's attachment to `document.body`, the
container's `scrollTop`, `document.body.style`, and the log of
`onSelectionChange` emissions (most recent first). -/
structure AreaWorld where
  mouseDown : Bool
  dragging : Bool
  selectCandidates : List (List Candidate)
  elementsCache : Option (List Nat)
  rafPending : Bool
  mouseDownClientX : ℚ
  mouseDownClientY : ℚ
  drawStart : Option Coordinates
  drawEnd : Option Coordinates
  ctrlKey : Bool
  metaKey : Bool
  listeners : Bool
  boxAttached : Bool
  scrollTop : ℚ
  body : BodyStyle
  emitted : List (List Nat × Bool × Bool)
deriving DecidableEq

/-- `getPosition`: container-local scroll-space coordinate of a client
point. -/
def getPosition (env : AreaEnv) (w : AreaWorld) (clientX clientY : ℚ) :
    Coordinates :=
  { x := env.scrollLeft + clientX - env.containerBox.x
    y := w.scrollTop + clientY - env.containerBox.y }

/-- The stateful part of `processSelection`: early return when `drawArea`
or the container is missing or there are no candidates (no emission, no
cache update), then the pure index computation, the string-joined cache
dedup, and the `onSelectionChange` emission. -/
def processSelectionStep (env : AreaEnv) (w : AreaWorld) : AreaWorld :=
  match w.drawStart, w.drawEnd with
  | some s, some e =>
    if ¬env.containerPresent then w
    else if w.selectCandidates = [] then w
    else
      let ai := processSelection w.selectCandidates env.itemCount s e
      if w.elementsCache = some ai then w
      else
        { w with elementsCache := some ai
                 emitted := (ai, w.ctrlKey, w.metaKey) :: w.emitted }
  | _, _ => w

/-- `startDragging`: arm into dragging, reset the dedup cache, snapshot
the candidates, anchor `drawArea.start` at the original mousedown
position, attach the floating box and run one synchronous
`processSelection`. -/
def startDragging (env : AreaEnv) (e : AreaMove) (w : AreaWorld) :
    AreaWorld :=
  let w₁ := { w with dragging := true, elementsCache := none }
  if ¬env.containerPresent then w₁
  else
    let pos := getPosition env w₁ w₁.mouseDownClientX w₁.mouseDownClientY
    let w₂ := { w₁ with
      selectCandidates :=
        updateCandidatesGrouped env.containerBox w₁.scrollTop
          env.measuredRects
      drawStart := some pos
      drawEnd := some (getPosition env w₁ e.clientX e.clientY)
      ctrlKey := e.ctrlKey
      metaKey := e.metaKey
      boxAttached := true }
    processSelectionStep env w₂

/-- `cleanup` of the area engine (useAreaSelection.ts lines 206-219):
clears the `userSelect` lock with the empty string, resets the flags,
cancels a pending animation frame, removes the floating box and both
document listeners. -/
def cleanupArea (w : AreaWorld) : AreaWorld :=
  { w with body := { w.body with userSelect := "" }
           mouseDown := false
           dragging := false
           rafPending := false
           boxAttached := false
           listeners := false }

/-- `onDocumentMouseMove` (area engine): stop when the left button is no
longer pressed; ignore when not armed or disabled; below the 5px
threshold do nothing (`sqrt(dx²+dy²) < 5` is written squared); first
qualifying move calls `startDragging` and returns; afterwards lock body
text selection, update `drawArea.end` and the modifiers, auto-scroll near
the scroll ancestor's edges (10% margin, 10px step) and coalesce the
recomputation behind the `rafId` guard. -/
def areaOnDocumentMouseMove (env : AreaEnv) (e : AreaMove)
    (w : AreaWorld) : AreaWorld :=
  if e.buttons % 2 = 0 then cleanupArea w
  else if ¬w.mouseDown ∨ ¬env.enabled then w
  else if ¬w.dragging then
    (if (e.clientX - w.mouseDownClientX) * (e.clientX - w.mouseDownClientX) +
        (e.clientY - w.mouseDownClientY) * (e.clientY - w.mouseDownClientY)
        < 25 then w
     else startDragging env e w)
  else
    let w₁ := { w with body := { w.body with userSelect := "none" } }
    if ¬env.containerPresent then w₁
    else
      let w₂ := { w₁ with
        drawEnd := some (getPosition env w₁ e.clientX e.clientY)
        ctrlKey := e.ctrlKey
        metaKey := e.metaKey }
      let margin := (env.scrollRect.bottom - env.scrollRect.y) * (1 / 10)
      let w₃ :=
        if env.scrollRect.bottom - e.clientY < margin then
          { w₂ with scrollTop := w₂.scrollTop + 10 }
        else if e.clientY - env.scrollRect.y < margin then
          { w₂ with scrollTop := w₂.scrollTop - 10 }
        else w₂
      if w₃.rafPending then w₃ else { w₃ with rafPending := true }

/-- `onMouseDown` of the area engine (the variant carrying the `canDrag`
option): left button, enabled, non-interactive target inside the present
container, and the `canDrag` veto; on acceptance record the press
coordinates and attach the document listeners. -/
def areaOnMouseDown (env : AreaEnv) (e : AreaMouseDown) (w : AreaWorld) :
    AreaWorld :=
  if e.button ≠ 0 ∨ ¬env.enabled then w
  else if e.targetInteractive then w
  else if ¬env.containerPresent ∨ ¬e.targetInContainer then w
  else if e.canDragResult.getD false then w
  else
    { w with mouseDown := true
             mouseDownClientX := e.clientX
             mouseDownClientY := e.clientY
             listeners := true }

/-- The animation-frame callback scheduled by `scheduleSelectionUpdate`:
clear `rafId`, and recompute only while dragging. -/
def areaOnFrame (env : AreaEnv) (w : AreaWorld) : AreaWorld :=
  if w.rafPending then
    let w₁ := { w with rafPending := false }
    if w₁.dragging then processSelectionStep env w₁ else w₁
  else w

/-- The events an area-selection instance can observe.  `keydown` is
listed because the spec claims Escape handling; the source file registers
no keydown listener anywhere. -/
inductive AreaEvent where
  | mousedown (e : AreaMouseDown)
  | mousemove (e : AreaMove)
  | mouseup
  | keydown (key : String)
  | frame
  | unmount
deriving DecidableEq

/-- One event step of the area engine.  Document-level handlers
(`mousemove`, `mouseup`) only run while attached; the engine registers no
`keydown` listener, so key events leave the world untouched; `onUnmounted`
runs `cleanup` unconditionally. -/
def areaStep (env : AreaEnv) (ev : AreaEvent) (w : AreaWorld) :
    AreaWorld :=
  match ev with
  | .mousedown e => areaOnMouseDown env e w
  | .mousemove e =>
    if w.listeners then areaOnDocumentMouseMove env e w else w
  | .mouseup => if w.listeners then cleanupArea w else w
  | .keydown _ => w
  | .frame => areaOnFrame env w
  | .unmount => cleanupArea w

/-- Folding a list of events through `areaStep`. -/
def areaRun (env : AreaEnv) (evs : List AreaEvent) (w : AreaWorld) :
    AreaWorld :=
  match evs with
  | [] => w
  | ev :: rest => areaRun env rest (areaStep env ev w)

/-! ### The stateful DragDropEngine (useFileDragDrop.ts) -/

/-- `'file' | 'folder'` (useFileDragDrop.ts line 6). -/
inductive ItemType where
  | file
  | folder
deriving DecidableEq

/-- `interface DragDropItem` (useFileDragDrop.ts lines 3-7). -/
structure Item where
  id : String
  name : String
  itemType : ItemType
deriving DecidableEq

/-- The resolution of `closest(itemSelector)` on a DOM element: whether
the row element lies inside the host container
(`container.contains(itemEl)`), and its `getIndexFromElement` result
(`-1` when the element is not among the container's item elements). -/
structure PointedEl where
  inContainer : Bool
  domIndex : Int
deriving DecidableEq

/-- The host/DOM environment a drag-drop handler reads on one event:
the option refs and callbacks (`enabled`, `getSelectedItems`,
`isItemSelected`, `getItemAtIndex`, presence of `onBreadcrumbDrop`),
whether `containerRef.value` is non-null, `getItemElements().length`,
and the scroll ancestor's rect for edge auto-scroll.  It is per-event:
the host's selection and list may change between events. -/
structure DragEnv where
  enabled : Bool
  containerPresent : Bool
  getSelectedItems : List Item
  isItemSelected : String → Bool
  getItemAtIndex : Nat → Option Item
  numItemElements : Nat
  hasBreadcrumbCb : Bool
  scrollRect : DOMRectM

/-- The data of a `mousedown` event as `onMouseDown` inspects it. -/
structure DragMouseDown where
  button : Nat
  targetInteractive : Bool
  itemEl : Option PointedEl
  clientX : ℚ
  clientY : ℚ
deriving DecidableEq

/-- The data of a document-level `mousemove` event:
`pointed` is the `document.elementFromPoint(...)?.closest(itemSelector)`
resolution under the pointer, `breadcrumbPath` the
`closest('[data-drop-path]')?.dataset.dropPath` resolution. -/
structure DragMove where
  buttons : Nat
  clientX : ℚ
  clientY : ℚ
  pointed : Option PointedEl
  breadcrumbPath : Option String
deriving DecidableEq

/-- `type State = 'IDLE' | 'ARMED' | 'DRAGGING'`. -/
inductive DDState where
  | idle
  | armed
  | dragging
deriving DecidableEq

/-- The closure state of one `useFileDragDrop` instance plus the pieces
of the document it owns (the three document listeners are attached and
removed together; `document.body.style` is part of the world). -/
structure DragWorld where
  state : DDState
  isDragging : Bool
  dragItems : List Item
  dropTargetId : Option String
  dropBreadcrumbPath : Option String
  previewPos : Coordinates
  mouseDownX : ℚ
  mouseDownY : ℚ
  savedCursor : String
  savedUserSelect : String
  scrollParentSet : Bool
  listeners : Bool
  scrollTop : ℚ
  body : BodyStyle
deriving DecidableEq

/-- `findDropTarget` (useFileDragDrop.ts lines 76-96): resolve the
element under the pointer to a row inside the container, look the item
up by DOM index, and accept it only when it is a folder that is not
currently selected. -/
def findDropTarget (env : DragEnv) (pointed : Option PointedEl) :
    Option Item :=
  match pointed with
  | none => none
  | some p =>
    if ¬env.containerPresent ∨ ¬p.inContainer then none
    else if p.domIndex < 0 then none
    else
      match env.getItemAtIndex p.domIndex.toNat with
      | none => none
      | some item =>
        if item.itemType ≠ ItemType.folder then none
        else if env.isItemSelected item.id then none
        else some item

/-- `findBreadcrumbTarget` (useFileDragDrop.ts lines 98-105): `null`
when no `onBreadcrumbDrop` callback was supplied, otherwise the
`data-drop-path` value under the pointer. -/
def findBreadcrumbTarget (env : DragEnv) (e : DragMove) : Option String :=
  if ¬env.hasBreadcrumbCb then none else e.breadcrumbPath

/-- `startDragging` (useFileDragDrop.ts lines 107-121): transition to
DRAGGING, snapshot the current selection as `dragItems`, save the body
styles and replace them with the drag styles, resolve the scroll
ancestor. -/
def ddStartDragging (env : DragEnv) (w : DragWorld) : DragWorld :=
  { w with state := .dragging
           isDragging := true
           dragItems := env.getSelectedItems
           savedCursor := w.body.cursor
           savedUserSelect := w.body.userSelect
           body := { cursor := "grabbing", userSelect := "none" }
           scrollParentSet := env.containerPresent }

/-- `cleanup` (useFileDragDrop.ts lines 123-139): reset the state
machine and all refs, restore the saved body styles, clear the saved
values, detach all three document listeners. -/
def ddCleanup (w : DragWorld) : DragWorld :=
  { w with state := .idle
           isDragging := false
           dragItems := []
           dropTargetId := none
           dropBreadcrumbPath := none
           scrollParentSet := false
           body := { cursor := w.savedCursor
                     userSelect := w.savedUserSelect }
           savedCursor := ""
           savedUserSelect := ""
           listeners := false }

/-- The DRAGGING part of `onDocumentMouseMove` (useFileDragDrop.ts lines
156-183): update the preview position (+12px offset), resolve the drop
target (row target first, breadcrumb only when no row target), reflect
validity in the body cursor, and auto-scroll near the scroll ancestor's
edges (10% margin, 10px step). -/
def ddDragTrack (env : DragEnv) (e : DragMove) (w : DragWorld) :
    DragWorld :=
  let target := findDropTarget env e.pointed
  let breadcrumbTarget :=
    if target = none then findBreadcrumbTarget env e else none
  let hasTarget := target.isSome ∨ breadcrumbTarget ≠ none
  let w₂ := { w with
    previewPos := ⟨e.clientX + 12, e.clientY + 12⟩
    dropTargetId := target.map Item.id
    dropBreadcrumbPath := breadcrumbTarget
    body := { w.body with
      cursor := if hasTarget then "grabbing" else "no-drop" } }
  let margin := (env.scrollRect.bottom - env.scrollRect.y) * (1 / 10)
  if env.scrollRect.bottom - e.clientY < margin then
    { w₂ with scrollTop := w₂.scrollTop + 10 }
  else if e.clientY - env.scrollRect.y < margin then
    { w₂ with scrollTop := w₂.scrollTop - 10 }
  else w₂

/-- `onDocumentMouseMove` (useFileDragDrop.ts lines 141-184): cleanup
when the left button is gone; from ARMED, below the 5px threshold
(`sqrt(dx²+dy²) < 5` written squared) nothing happens, past it
`startDragging` runs and the handler falls through to the tracking part
(the state is then DRAGGING); otherwise the tracking part runs only in
DRAGGING (the `state !== 'DRAGGING'` early return). -/
def ddOnMouseMove (env : DragEnv) (e : DragMove) (w : DragWorld) :
    DragWorld :=
  if e.buttons % 2 = 0 then ddCleanup w
  else if w.state = .armed then
    (if (e.clientX - w.mouseDownX) * (e.clientX - w.mouseDownX) +
        (e.clientY - w.mouseDownY) * (e.clientY - w.mouseDownY)
        < 25 then w
     else ddDragTrack env e (ddStartDragging env w))
  else if w.state = .dragging then ddDragTrack env e w
  else w

/-- The `for` loop of `findDropTargetItem` (useFileDragDrop.ts lines
204-212): scan item positions `i, i+1, ...` (`count` positions left) for
the first item whose id matches. -/
def fdtiGo (env : DragEnv) (targetId : String) :
    Nat → Nat → Option Item
  | _, 0 => none
  | i, count + 1 =>
    match env.getItemAtIndex i with
    | some item =>
      if item.id = targetId then some item
      else fdtiGo env targetId (i + 1) count
    | none => fdtiGo env targetId (i + 1) count

/-- `findDropTargetItem`: first listed item whose id matches. -/
def findDropTargetItem (env : DragEnv) (targetId : String) : Option Item :=
  if ¬env.containerPresent then none
  else fdtiGo env targetId 0 env.numItemElements

/-- The host callback fired by `onDocumentMouseUp` (the engine awaits it
after the synchronous cleanup). -/
inductive DropAction where
  | none
  | rowDrop (srcIds : List String) (dstId : String) (dstName : String)
  | breadcrumbDrop (srcIds : List String) (path : String)
deriving DecidableEq

/-- `onDocumentMouseUp` (useFileDragDrop.ts lines 186-202): with an
active row target fire `onDrop(srcIds, dstId, dstName)`; else with an
active breadcrumb path and a supplied callback fire
`onBreadcrumbDrop(srcIds, path)`; else nothing.  Cleanup runs in every
branch before the callback is awaited. -/
def ddOnMouseUp (env : DragEnv) (w : DragWorld) :
    DragWorld × DropAction :=
  match w.state, w.dropTargetId, w.dropBreadcrumbPath with
  | .dragging, some dstId, _ =>
    (ddCleanup w,
     .rowDrop (w.dragItems.map Item.id) dstId
       (((findDropTargetItem env dstId).map Item.name).getD ""))
  | .dragging, none, some path =>
    if env.hasBreadcrumbCb then
      (ddCleanup w, .breadcrumbDrop (w.dragItems.map Item.id) path)
    else (ddCleanup w, .none)
  | _, _, _ => (ddCleanup w, .none)

/-- `onKeyDown` (useFileDragDrop.ts lines 214-218): Escape cancels. -/
def ddOnKeyDown (key : String) (w : DragWorld) : DragWorld :=
  if key = "Escape" then ddCleanup w else w

/-- The item-resolution chain of `onMouseDown` (useFileDragDrop.ts lines
228-238): `findItemElement`, container containment, `getIndexFromElement`
and `getItemAtIndex`. -/
def resolveMouseDownItem (env : DragEnv) (e : DragMouseDown) :
    Option Item :=
  match e.itemEl with
  | none => none
  | some p =>
    if ¬env.containerPresent ∨ ¬p.inContainer then none
    else if p.domIndex < 0 then none
    else env.getItemAtIndex p.domIndex.toNat

/-- `onMouseDown` (useFileDragDrop.ts lines 220-250): left button,
enabled, IDLE, non-interactive target resolving to a row of the container
whose item is already selected; then ARM and attach the three document
listeners. -/
def ddOnMouseDown (env : DragEnv) (e : DragMouseDown) (w : DragWorld) :
    DragWorld :=
  if e.button ≠ 0 ∨ ¬env.enabled then w
  else if w.state ≠ .idle then w
  else if e.targetInteractive then w
  else
    match resolveMouseDownItem env e with
    | none => w
    | some item =>
      if ¬env.isItemSelected item.id then w
      else
        { w with state := .armed
                 mouseDownX := e.clientX
                 mouseDownY := e.clientY
                 listeners := true }

/-- `shouldSkipAreaSelection` (useFileDragDrop.ts lines 65-74): true
exactly when the engine is enabled and the target resolves to a row whose
item is currently selected (no container-containment check here, matching
the source). -/
def shouldSkipAreaSelection (env : DragEnv) (itemEl : Option PointedEl) :
    Bool :=
  if ¬env.enabled then false
  else
    match itemEl with
    | none => false
    | some p =>
      if p.domIndex < 0 then false
      else
        match env.getItemAtIndex p.domIndex.toNat with
        | none => false
        | some item => env.isItemSelected item.id

/-- The events a drag-drop instance can observe. -/
inductive DragEvent where
  | mousedown (e : DragMouseDown)
  | mousemove (e : DragMove)
  | mouseup
  | keydown (key : String)
  | unmount
deriving DecidableEq

/-- One event step of the drag-drop engine, paired with the callback it
fires.  The document-level handlers (`mousemove`, `mouseup`, `keydown`)
only run while attached; `onUnmounted` cleans up only when a session is
active (`state !== 'IDLE'`). -/
def ddStep (env : DragEnv) (ev : DragEvent) (w : DragWorld) :
    DragWorld × DropAction :=
  match ev with
  | .mousedown e => (ddOnMouseDown env e w, .none)
  | .mousemove e =>
    if w.listeners then (ddOnMouseMove env e w, .none) else (w, .none)
  | .mouseup => if w.listeners then ddOnMouseUp env w else (w, .none)
  | .keydown k =>
    if w.listeners then (ddOnKeyDown k w, .none) else (w, .none)
  | .unmount => if w.state ≠ .idle then (ddCleanup w, .none) else (w, .none)

/-- Folding a list of (environment, event) pairs through `ddStep`,
keeping only the world. -/
def ddRun (steps : List (DragEnv × DragEvent)) (w : DragWorld) :
    DragWorld :=
  match steps with
  | [] => w
  | (env, ev) :: rest => ddRun rest (ddStep env ev w).1

/-! ### Claim theorems: the pure selection algorithm -/

/-- C1 (counterexample).  The claim as stated is false: `overlapRows` is
sorted ascending by first-candidate `y` and the rectangle
`(0,15)-(10,16)` is normalized, yet the narrowed scan of
`processSelection` returns the empty set while the brute-force AABB scan
returns `[0]` — row 0 is 100px tall and still intersects the rectangle,
but `binarySearchTop` starts the scan at row 1. -/
theorem binary_narrowing_misses_tall_row :
    List.Pairwise (fun r₁ r₂ => rowY r₁ ≤ rowY r₂) overlapRows ∧
    (Coordinates.mk 0 15).x ≤ (Coordinates.mk 10 16).x ∧
    (Coordinates.mk 0 15).y ≤ (Coordinates.mk 10 16).y ∧
    processSelection overlapRows 3 ⟨0, 15⟩ ⟨10, 16⟩ ≠
      bruteForceSelection overlapRows 3 ⟨0, 15⟩ ⟨10, 16⟩ := by
  refine ⟨by decide, by decide, by decide, ?_⟩
  rw [processSelection_overlap]
  decide

/-- C1 (amended).  The narrowed scan equals the brute-force scan for
sorted candidate rows, provided additionally that every candidate shares
its row's first `y` and consecutive rows do not overlap vertically (every
candidate's `bottom` is at most the next row's top `y`) — the geometry
`updateCandidates` measures from non-overlapping rendered rows.  Without
these two conditions the equivalence fails
(`binary_narrowing_misses_tall_row`). -/
theorem processSelection_eq_bruteForce_of_disjoint_rows
    (cands : List (List Candidate)) (itemCount : Nat) (a b : Coordinates)
    (hsorted : cands.Pairwise (fun r₁ r₂ => rowY r₁ ≤ rowY r₂))
    (haligned : ∀ r ∈ cands, ∀ c ∈ r, c.y = rowY r)
    (hdisjoint : cands.Chain' (fun r₁ r₂ => ∀ c ∈ r₁, c.bottom ≤ rowY r₂))
    (hx : a.x ≤ b.x) (hy : a.y ≤ b.y) :
    processSelection cands itemCount a b =
      bruteForceSelection cands itemCount a b :=
  narrowedScan_eq_bruteForce cands itemCount a b hsorted haligned hdisjoint

/-- Witness for C1 (amended) at the five-row demo geometry. -/
theorem processSelection_eq_bruteForce_of_disjoint_rows_witness :
    List.Pairwise (fun r₁ r₂ => rowY r₁ ≤ rowY r₂) demoRows ∧
    List.Chain' (fun r₁ r₂ => ∀ c ∈ r₁, c.bottom ≤ rowY r₂) demoRows ∧
    processSelection demoRows 5 ⟨10, 10⟩ ⟨10, 95⟩ =
      bruteForceSelection demoRows 5 ⟨10, 10⟩ ⟨10, 95⟩ :=
  ⟨by decide,
   by simp only [demoRows, List.chain'_cons, List.chain'_singleton]; decide,
   processSelection_eq_bruteForce_of_disjoint_rows demoRows 5 ⟨10, 10⟩
     ⟨10, 95⟩ (by decide) (by decide)
     (by simp only [demoRows, List.chain'_cons, List.chain'_singleton]
         decide)
     (by decide) (by decide)⟩

/-- C2.  End-to-end scenario: five rows at y-offsets 0, 30, 60, 90, 120
of height 25, drag rectangle `(10,10)-(10,95)`: `processSelection`
returns exactly `[0, 1, 2, 3]`, and index 4 is excluded. -/
theorem processSelection_demo_scenario :
    processSelection demoRows 5 ⟨10, 10⟩ ⟨10, 95⟩ = [0, 1, 2, 3] ∧
    4 ∉ processSelection demoRows 5 ⟨10, 10⟩ ⟨10, 95⟩ := by
  refine ⟨processSelection_demo, ?_⟩
  rw [processSelection_demo]
  decide

/-- C3.  Rectangle symmetry: swapping `drawArea.start` and
`drawArea.end` never changes the computed index set, for every candidate
list and item count (the `min`/`max` normalization is symmetric; the
modifier keys are passed through unchanged and do not enter the index
computation). -/
theorem processSelection_symm (cands : List (List Candidate)) (n : Nat)
    (a b : Coordinates) :
    processSelection cands n a b = processSelection cands n b a := by
  simp only [processSelection]
  rw [min_comm a.x b.x, min_comm a.y b.y, max_comm a.x b.x,
    max_comm a.y b.y]

/-- C9.  Every index `processSelection` can hand to `onSelectionChange`
is strictly below the `itemCount` in force at that recomputation — so
after a mid-drag shrink from N to M the stale cached geometry can never
surface an index `≥ M`. -/
theorem processSelection_indices_lt_itemCount
    (cands : List (List Candidate)) (n : Nat) (a b : Coordinates)
    (i : Nat) (h : i ∈ processSelection cands n a b) : i < n := by
  simp only [processSelection] at h
  by_cases hnil : cands = []
  · rw [if_pos hnil] at h
    simp at h
  · rw [if_neg hnil] at h
    exact flatMapRows_rowHits_lt n _ _ _ _ _ i h

/-- Witness for C9 at the demo scenario. -/
theorem processSelection_indices_lt_itemCount_witness :
    0 ∈ processSelection demoRows 5 ⟨10, 10⟩ ⟨10, 95⟩ ∧ 0 < 5 :=
  ⟨by rw [processSelection_demo]; decide,
   processSelection_indices_lt_itemCount demoRows 5 ⟨10, 10⟩ ⟨10, 95⟩ 0
     (by rw [processSelection_demo]; decide)⟩

/-- C10.  On candidates measured by `updateCandidates` (index = DOM
position, rows in document order), every index list `processSelection`
computes is strictly increasing — sorted ascending and duplicate-free. -/
theorem processSelection_indices_sorted (containerBox : DOMRectM)
    (scrollTop : ℚ) (rects : List DOMRectM) (n : Nat)
    (a b : Coordinates) :
    List.Pairwise (· < ·)
      (processSelection (updateCandidates containerBox scrollTop rects)
        n a b) := by
  have hsub : List.Sublist
      (processSelection (updateCandidates containerBox scrollTop rects)
        n a b)
      (flatMapRows (fun r => r.map Candidate.index)
        (updateCandidates containerBox scrollTop rects)) := by
    simp only [processSelection]
    split
    · exact List.nil_sublist _
    · exact (flatMapRows_sublist_mono _ _
          (rowHits_sublist_index n _ _ _ _) _).trans
        (flatMapRows_sublist_rows _
          ((List.take_sublist _ _).trans (List.drop_sublist _ _)))
  rw [show flatMapRows (fun r => r.map Candidate.index)
      (updateCandidates containerBox scrollTop rects) =
      List.range' 0 rects.length from
    ucGo_flat_index containerBox scrollTop rects 0] at hsub
  exact (List.pairwise_lt_range' 0 rects.length).sublist hsub

/-! ### Concrete worlds and environments for the stateful claims -/

/-- An area-selection environment: enabled, container present, no
measured rows. -/
def areaEnv0 : AreaEnv :=
  { enabled := true
    itemCount := 0
    containerPresent := true
    containerBox := ⟨0, 0, 800, 600⟩
    scrollLeft := 0
    measuredRects := []
    scrollRect := ⟨0, 0, 800, 600⟩ }

/-- An idle area world whose host page has set a custom
`userSelect: text` inline style on `document.body`. -/
def areaWorld0 : AreaWorld :=
  { mouseDown := false
    dragging := false
    selectCandidates := []
    elementsCache := none
    rafPending := false
    mouseDownClientX := 0
    mouseDownClientY := 0
    drawStart := none
    drawEnd := none
    ctrlKey := false
    metaKey := false
    listeners := false
    boxAttached := false
    scrollTop := 0
    body := ⟨"", "text"⟩
    emitted := [] }

/-- An area world in the middle of a drag: armed, dragging, document
listeners attached, floating box in the body. -/
def areaMidDrag : AreaWorld :=
  { areaWorld0 with
    mouseDown := true
    dragging := true
    listeners := true
    boxAttached := true }

/-- A folder item. -/
def itemA : Item := ⟨"a", "A", ItemType.folder⟩

/-- A drag-drop environment with one row, item `a` (a folder), currently
selected. -/
def ddEnvSel : DragEnv :=
  { enabled := true
    containerPresent := true
    getSelectedItems := [itemA]
    isItemSelected := fun s => s == "a"
    getItemAtIndex := fun i => if i = 0 then some itemA else none
    numItemElements := 1
    hasBreadcrumbCb := false
    scrollRect := ⟨0, 0, 800, 600⟩ }

/-- The same host after it cleared its selection mid-drag. -/
def ddEnvUnselAll : DragEnv :=
  { ddEnvSel with isItemSelected := fun _ => false }

/-- A neutral drag-drop environment. -/
def ddEnv0 : DragEnv :=
  { enabled := true
    containerPresent := true
    getSelectedItems := []
    isItemSelected := fun _ => false
    getItemAtIndex := fun _ => none
    numItemElements := 0
    hasBreadcrumbCb := false
    scrollRect := ⟨0, 0, 800, 600⟩ }

/-- An idle drag-drop world. -/
def ddWorld0 : DragWorld :=
  { state := .idle
    isDragging := false
    dragItems := []
    dropTargetId := none
    dropBreadcrumbPath := none
    previewPos := ⟨0, 0⟩
    mouseDownX := 0
    mouseDownY := 0
    savedCursor := ""
    savedUserSelect := ""
    scrollParentSet := false
    listeners := false
    scrollTop := 0
    body := ⟨"", ""⟩ }

/-- A drag-drop world mid-drag, with the host's custom pre-drag styles
saved at drag start. -/
def ddMidDrag : DragWorld :=
  { ddWorld0 with
    state := .dragging
    isDragging := true
    dragItems := [itemA]
    savedCursor := "crosshair"
    savedUserSelect := "text"
    scrollParentSet := true
    listeners := true
    body := ⟨"grabbing", "none"⟩ }

/-! ### Claim theorems: Escape handling (C4) -/

/-- C4 (counterexample).  The area engine registers no `keydown`
listener: in the middle of an area-selection drag (dragging, listeners
attached, floating box in the body) pressing Escape changes nothing —
no cleanup, listeners stay attached, the box stays in the body —
contradicting the claim that both engines cancel on Escape. -/
theorem areaSelection_escape_noop :
    areaMidDrag.dragging = true ∧ areaMidDrag.listeners = true ∧
    areaMidDrag.boxAttached = true ∧
    areaStep areaEnv0 (.keydown "Escape") areaMidDrag = areaMidDrag :=
  ⟨rfl, rfl, rfl, rfl⟩

/-- C4 (amended).  Only DragDropEngine handles Escape: with its document
listeners attached, a keydown "Escape" performs the full synchronous
cleanup (IDLE, listeners detached, refs cleared, body styles set back to
the saved values).  AreaSelectionEngine registers no keydown listener,
and every key event leaves its world untouched; it cancels only on
mouseup, button-release detection, or unmount. -/
theorem escape_cleanup_dragDrop_only :
    (∀ (env : DragEnv) (w : DragWorld), w.listeners = true →
      (ddStep env (.keydown "Escape") w).1 = ddCleanup w ∧
      (ddStep env (.keydown "Escape") w).1.state = .idle ∧
      (ddStep env (.keydown "Escape") w).1.listeners = false ∧
      (ddStep env (.keydown "Escape") w).1.isDragging = false ∧
      (ddStep env (.keydown "Escape") w).1.dragItems = [] ∧
      (ddStep env (.keydown "Escape") w).1.dropTargetId = none ∧
      (ddStep env (.keydown "Escape") w).1.dropBreadcrumbPath = none ∧
      (ddStep env (.keydown "Escape") w).1.body =
        ⟨w.savedCursor, w.savedUserSelect⟩) ∧
    (∀ (env : AreaEnv) (k : String) (w : AreaWorld),
      areaStep env (.keydown k) w = w) := by
  constructor
  · intro env w h
    have hstep : (ddStep env (.keydown "Escape") w).1 = ddCleanup w := by
      simp [ddStep, h, ddOnKeyDown]
    rw [hstep]
    exact ⟨rfl, rfl, rfl, rfl, rfl, rfl, rfl, rfl⟩
  · intro env k w
    rfl

/-- Witness for C4 (amended): Escape mid-drag resets DragDropEngine. -/
theorem escape_cleanup_dragDrop_only_witness :
    ddMidDrag.listeners = true ∧
    (ddStep ddEnv0 (.keydown "Escape") ddMidDrag).1.state = .idle ∧
    (ddStep ddEnv0 (.keydown "Escape") ddMidDrag).1.body =
      ⟨"crosshair", "text"⟩ :=
  ⟨rfl,
   (escape_cleanup_dragDrop_only.1 ddEnv0 ddMidDrag rfl).2.1,
   (escape_cleanup_dragDrop_only.1 ddEnv0 ddMidDrag rfl).2.2.2.2.2.2.2⟩

/-! ### Claim theorems: canDrag gating (C5) -/

/-- C5.  When the host wires the area engine's `canDrag` option to the
drag engine's `shouldSkipAreaSelection` and that predicate accepts the
pressed row (its item is currently selected), `onMouseDown` of the area
engine declines the press entirely: the world is unchanged — no tracking
state is set and no document listeners are attached. -/
theorem areaOnMouseDown_defers_to_dragEngine
    (aenv : AreaEnv) (denv : DragEnv) (itemEl : Option PointedEl)
    (e : AreaMouseDown) (w : AreaWorld)
    (hwire : e.canDragResult = some (shouldSkipAreaSelection denv itemEl))
    (hskip : shouldSkipAreaSelection denv itemEl = true) :
    areaOnMouseDown aenv e w = w := by
  simp only [areaOnMouseDown, hwire, hskip, Option.getD_some, if_true,
    ite_self]

/-- The pointer resolution used by the C5 witness: the single row of
`ddEnvSel`, inside the container, DOM index 0. -/
def pointedA : Option PointedEl := some ⟨true, 0⟩

/-- Witness for C5: with item `a` selected, `shouldSkipAreaSelection`
returns true and the area engine declines the press. -/
theorem areaOnMouseDown_defers_to_dragEngine_witness :
    shouldSkipAreaSelection ddEnvSel pointedA = true ∧
    areaOnMouseDown areaEnv0
      ⟨0, false, true, some (shouldSkipAreaSelection ddEnvSel pointedA),
       3, 4⟩ areaWorld0 = areaWorld0 :=
  ⟨by decide,
   areaOnMouseDown_defers_to_dragEngine areaEnv0 ddEnvSel pointedA
     ⟨0, false, true, some (shouldSkipAreaSelection ddEnvSel pointedA),
      3, 4⟩ areaWorld0 rfl (by decide)⟩

/-! ### Claim theorems: body-style restoration (C6) -/

/-- The mid-session invariant of a DragDropEngine drag: either the
session is live (DRAGGING, listeners attached, saved styles equal to the
pre-drag body `b₀`), or it ended (IDLE, listeners detached, body
restored to `b₀`). -/
def ddSavedEq (b₀ : BodyStyle) (w : DragWorld) : Prop :=
  (w.state = .dragging ∧ w.listeners = true ∧
    w.savedCursor = b₀.cursor ∧ w.savedUserSelect = b₀.userSelect) ∨
  (w.state = .idle ∧ w.listeners = false ∧ w.body = b₀)

/-- While DRAGGING, a mousemove with the left button held only touches
the preview, the drop-target refs, the body cursor and the scroll
position: state, listeners and the saved styles survive. -/
lemma ddDragTrack_fields (env : DragEnv) (e : DragMove) (w : DragWorld) :
    (ddDragTrack env e w).state = w.state ∧
    (ddDragTrack env e w).listeners = w.listeners ∧
    (ddDragTrack env e w).savedCursor = w.savedCursor ∧
    (ddDragTrack env e w).savedUserSelect = w.savedUserSelect := by
  unfold ddDragTrack
  dsimp only
  split
  · exact ⟨rfl, rfl, rfl, rfl⟩
  · split <;> exact ⟨rfl, rfl, rfl, rfl⟩

lemma ddOnMouseMove_dragging_fields (env : DragEnv) (e : DragMove)
    (w : DragWorld) (hb : ¬(e.buttons % 2 = 0))
    (hs : w.state = .dragging) :
    (ddOnMouseMove env e w).state = .dragging ∧
    (ddOnMouseMove env e w).listeners = w.listeners ∧
    (ddOnMouseMove env e w).savedCursor = w.savedCursor ∧
    (ddOnMouseMove env e w).savedUserSelect = w.savedUserSelect := by
  have harm : ¬(w.state = DDState.armed) := by rw [hs]; intro h; cases h
  have hmv : ddOnMouseMove env e w = ddDragTrack env e w := by
    unfold ddOnMouseMove
    rw [if_neg hb, if_neg harm, if_pos hs]
  obtain ⟨h1, h2, h3, h4⟩ := ddDragTrack_fields env e w
  rw [hmv]
  exact ⟨h1.trans hs, h2, h3, h4⟩

/-- One `mousemove` event preserves the mid-session invariant. -/
lemma ddSavedEq_mousemove (b₀ : BodyStyle) (env : DragEnv) (e : DragMove)
    (w : DragWorld) (h : ddSavedEq b₀ w) :
    ddSavedEq b₀ (ddStep env (.mousemove e) w).1 := by
  rcases h with ⟨hs, hl, hc, hu⟩ | ⟨hs, hl, hbody⟩
  · have hstep : (ddStep env (.mousemove e) w).1 = ddOnMouseMove env e w := by
      simp [ddStep, hl]
    rw [hstep]
    by_cases hb : e.buttons % 2 = 0
    · right
      unfold ddOnMouseMove
      rw [if_pos hb]
      refine ⟨rfl, rfl, ?_⟩
      show (⟨w.savedCursor, w.savedUserSelect⟩ : BodyStyle) = b₀
      rw [hc, hu]
    · left
      obtain ⟨h1, h2, h3, h4⟩ := ddOnMouseMove_dragging_fields env e w hb hs
      exact ⟨h1, h2.trans hl, h3.trans hc, h4.trans hu⟩
  · right
    have hstep : (ddStep env (.mousemove e) w).1 = w := by
      simp [ddStep, hl]
    rw [hstep]
    exact ⟨hs, hl, hbody⟩

/-- `onDocumentMouseUp` always performs the synchronous cleanup,
whatever it decides to fire. -/
lemma ddOnMouseUp_fst (env : DragEnv) (w : DragWorld) :
    (ddOnMouseUp env w).1 = ddCleanup w := by
  unfold ddOnMouseUp
  split
  · rfl
  · split <;> rfl
  · rfl

/-- A run of mousemove events (arbitrary per-event environments)
preserves the mid-session invariant. -/
lemma ddSavedEq_run (b₀ : BodyStyle) :
    ∀ (moves : List (DragEnv × DragMove)) (w : DragWorld),
      ddSavedEq b₀ w →
      ddSavedEq b₀
        (ddRun (moves.map fun p => (p.1, DragEvent.mousemove p.2)) w) := by
  intro moves
  induction moves with
  | nil => intro w h; exact h
  | cons p rest ih =>
    intro w h
    exact ih _ (ddSavedEq_mousemove b₀ p.1 p.2 w h)

/-- From the mid-session invariant, any terminating event (mouseup,
Escape, unmount) leaves the body styles at their pre-drag values. -/
lemma ddSavedEq_terminator (b₀ : BodyStyle) (env : DragEnv)
    (term : DragEvent) (w : DragWorld) (h : ddSavedEq b₀ w)
    (hterm : term = .mouseup ∨ term = .keydown "Escape" ∨
      term = .unmount) :
    (ddStep env term w).1.body = b₀ := by
  have hclean : ∀ w' : DragWorld, w'.savedCursor = b₀.cursor →
      w'.savedUserSelect = b₀.userSelect → (ddCleanup w').body = b₀ := by
    intro w' hc hu
    show (⟨w'.savedCursor, w'.savedUserSelect⟩ : BodyStyle) = b₀
    rw [hc, hu]
  rcases h with ⟨hs, hl, hc, hu⟩ | ⟨hs, hl, hbody⟩
  · rcases hterm with rfl | rfl | rfl
    · have : (ddStep env .mouseup w).1 = ddCleanup w := by
        simp [ddStep, hl, ddOnMouseUp_fst]
      rw [this]
      exact hclean w hc hu
    · have : (ddStep env (.keydown "Escape") w).1 = ddCleanup w := by
        simp [ddStep, hl, ddOnKeyDown]
      rw [this]
      exact hclean w hc hu
    · have : (ddStep env .unmount w).1 = ddCleanup w := by
        simp [ddStep, hs]
      rw [this]
      exact hclean w hc hu
  · rcases hterm with rfl | rfl | rfl
    · have : (ddStep env .mouseup w).1 = w := by simp [ddStep, hl]
      rw [this]; exact hbody
    · have : (ddStep env (.keydown "Escape") w).1 = w := by
        simp [ddStep, hl]
      rw [this]; exact hbody
    · have : (ddStep env .unmount w).1 = w := by simp [ddStep, hs]
      rw [this]; exact hbody

/-- C6 (counterexample).  The area engine blanket-resets: with the host
page's `userSelect: text` in place, a full area-selection drag
(mousedown, arming move, tracking move, mouseup) ends with
`document.body.style.userSelect = ""`, not the pre-drag `"text"`. -/
theorem areaCleanup_blanket_resets_userSelect :
    areaWorld0.body.userSelect = "text" ∧
    (areaRun areaEnv0
      [.mousedown ⟨0, false, true, none, 0, 0⟩,
       .mousemove ⟨1, 100, 100, false, false⟩,
       .mousemove ⟨1, 120, 120, false, false⟩,
       .mouseup] areaWorld0).body.userSelect = "" := by
  exact ⟨rfl, by with_unfolding_all decide⟩

/-- C6 (amended).  DragDropEngine captures the body styles at
`startDragging` and any termination of a session that reached DRAGGING
restores exactly those values, even across arbitrary interleaved
mousemoves with changing environments.  AreaSelectionEngine's cleanup
instead resets `userSelect` to the empty string unconditionally (it
never touches `cursor`). -/
theorem dragDrop_restores_body_styles :
    (∀ (env : DragEnv) (w : DragWorld),
      (ddStartDragging env w).savedCursor = w.body.cursor ∧
      (ddStartDragging env w).savedUserSelect = w.body.userSelect) ∧
    (∀ (b₀ : BodyStyle) (moves : List (DragEnv × DragMove))
       (term : DragEvent) (env : DragEnv) (w : DragWorld),
      w.state = .dragging → w.listeners = true →
      w.savedCursor = b₀.cursor → w.savedUserSelect = b₀.userSelect →
      (term = .mouseup ∨ term = .keydown "Escape" ∨ term = .unmount) →
      (ddStep env term
        (ddRun (moves.map fun p => (p.1, DragEvent.mousemove p.2))
          w)).1.body = b₀) ∧
    (∀ w : AreaWorld, (cleanupArea w).body.userSelect = "" ∧
      (cleanupArea w).body.cursor = w.body.cursor) := by
  refine ⟨fun env w => ⟨rfl, rfl⟩, ?_, fun w => ⟨rfl, rfl⟩⟩
  intro b₀ moves term env w hs hl hc hu hterm
  exact ddSavedEq_terminator b₀ env term _
    (ddSavedEq_run b₀ moves w (Or.inl ⟨hs, hl, hc, hu⟩)) hterm

/-- Witness for C6 (amended): a drag that saved `crosshair`/`text` and
then sees one tracking move and a mouseup gets both styles back. -/
theorem dragDrop_restores_body_styles_witness :
    ddMidDrag.state = .dragging ∧ ddMidDrag.listeners = true ∧
    ddMidDrag.savedCursor = "crosshair" ∧
    ddMidDrag.savedUserSelect = "text" ∧
    (ddStep ddEnv0 .mouseup
      (ddRun ([(ddEnv0, (⟨1, 50, 50, none, none⟩ : DragMove))].map
        fun p => (p.1, DragEvent.mousemove p.2)) ddMidDrag)).1.body =
      ⟨"crosshair", "text"⟩ :=
  ⟨rfl, rfl, rfl, rfl,
   dragDrop_restores_body_styles.2.1 ⟨"crosshair", "text"⟩
     [(ddEnv0, ⟨1, 50, 50, none, none⟩)] .mouseup ddEnv0 ddMidDrag
     rfl rfl rfl rfl (Or.inl rfl)⟩

/-! ### Claim theorems: drop-target validity (C7) -/

/-- What a successful `findDropTarget` resolution guarantees: the item
is a folder, it is not currently selected, and the element under the
pointer is a row inside the present container. -/
lemma findDropTarget_spec (env : DragEnv) (pointed : Option PointedEl)
    (item : Item) (h : findDropTarget env pointed = some item) :
    item.itemType = ItemType.folder ∧
    env.isItemSelected item.id = false ∧
    env.containerPresent = true ∧
    ∃ p, pointed = some p ∧ p.inContainer = true := by
  cases pointed with
  | none => exact Option.noConfusion h
  | some p =>
    unfold findDropTarget at h
    dsimp only at h
    by_cases h1 : ¬env.containerPresent ∨ ¬p.inContainer
    · rw [if_pos h1] at h
      exact Option.noConfusion h
    · rw [if_neg h1] at h
      by_cases h2 : p.domIndex < 0
      · rw [if_pos h2] at h
        exact Option.noConfusion h
      · rw [if_neg h2] at h
        cases hidx : env.getItemAtIndex p.domIndex.toNat with
        | none =>
          rw [hidx] at h
          exact Option.noConfusion h
        | some it =>
          rw [hidx] at h
          dsimp only at h
          by_cases h3 : it.itemType ≠ ItemType.folder
          · rw [if_pos h3] at h
            exact Option.noConfusion h
          · rw [if_neg h3] at h
            by_cases h4 : env.isItemSelected it.id
            · rw [if_pos h4] at h
              exact Option.noConfusion h
            · rw [if_neg h4] at h
              have hit : it = item := Option.some.inj h
              subst hit
              simp only [not_or] at h1
              refine ⟨not_not.mp h3, by simpa using h4, by simpa using h1.1,
                p, rfl, by simpa using h1.2⟩

/-- While DRAGGING, a tracking move publishes exactly the
`findDropTarget` resolution (mapped to its id) as `dropTargetId`. -/
lemma ddDragTrack_dropTargetId (env : DragEnv) (e : DragMove)
    (w : DragWorld) :
    (ddDragTrack env e w).dropTargetId =
      (findDropTarget env e.pointed).map Item.id := by
  unfold ddDragTrack
  dsimp only
  split
  · rfl
  · split <;> rfl

/-- C7 (counterexample).  `findDropTarget` consults the live
`isItemSelected`, not the `dragItems` snapshot: if the host clears its
selection mid-drag, the very item being dragged (a folder) registers as
`dropTargetId` on the next pointer move. -/
theorem dropTarget_can_be_dragged_item :
    (ddRun
      [(ddEnvSel, .mousedown ⟨0, false, some ⟨true, 0⟩, 0, 0⟩),
       (ddEnvSel, .mousemove ⟨1, 100, 100, none, none⟩),
       (ddEnvUnselAll, .mousemove ⟨1, 100, 100, some ⟨true, 0⟩, none⟩)]
      ddWorld0).dropTargetId = some "a" ∧
    "a" ∈ (ddRun
      [(ddEnvSel, .mousedown ⟨0, false, some ⟨true, 0⟩, 0, 0⟩),
       (ddEnvSel, .mousemove ⟨1, 100, 100, none, none⟩),
       (ddEnvUnselAll, .mousemove ⟨1, 100, 100, some ⟨true, 0⟩, none⟩)]
      ddWorld0).dragItems.map Item.id := by
  with_unfolding_all decide

/-- C7 (amended).  `dropTargetId` only ever carries the id of a
`findDropTarget` resolution: an item of a row inside the present
container, of type folder, not selected per the host's `isItemSelected`
at the moment of that pointer move — hence never a dragged item's id as
long as the host's selection still contains every dragged item; and
`onDocumentMouseUp` fires the row-drop callback only from DRAGGING with
a registered `dropTargetId`. -/
theorem dropTarget_validity :
    (∀ (env : DragEnv) (pointed : Option PointedEl) (item : Item),
      findDropTarget env pointed = some item →
        item.itemType = ItemType.folder ∧
        env.isItemSelected item.id = false ∧
        env.containerPresent = true ∧
        ∃ p, pointed = some p ∧ p.inContainer = true) ∧
    (∀ (env : DragEnv) (pointed : Option PointedEl) (item : Item)
       (dragged : List Item),
      findDropTarget env pointed = some item →
      (∀ it ∈ dragged, env.isItemSelected it.id = true) →
      item.id ∉ dragged.map Item.id) ∧
    (∀ (env : DragEnv) (e : DragMove) (w : DragWorld) (id : String),
      w.state = .dragging →
      (ddOnMouseMove env e w).dropTargetId = some id →
      ∃ item, findDropTarget env e.pointed = some item ∧ item.id = id) ∧
    (∀ (env : DragEnv) (w : DragWorld) (ids : List String)
       (dst nm : String),
      (ddOnMouseUp env w).2 = .rowDrop ids dst nm →
      w.state = .dragging ∧ w.dropTargetId = some dst) := by
  refine ⟨findDropTarget_spec, ?_, ?_, ?_⟩
  · intro env pointed item dragged h hall hmem
    obtain ⟨_, hsel, _, _⟩ := findDropTarget_spec env pointed item h
    rcases List.mem_map.mp hmem with ⟨it, hit, hid⟩
    have htrue := hall it hit
    rw [hid] at htrue
    rw [htrue] at hsel
    exact Bool.noConfusion hsel
  · intro env e w id hs hd
    by_cases hb : e.buttons % 2 = 0
    · have hcl : ddOnMouseMove env e w = ddCleanup w := by
        unfold ddOnMouseMove
        rw [if_pos hb]
      rw [hcl] at hd
      exact Option.noConfusion hd
    · have harm : ¬(w.state = DDState.armed) := by
        rw [hs]
        intro hc
        cases hc
      have hmv : ddOnMouseMove env e w = ddDragTrack env e w := by
        unfold ddOnMouseMove
        rw [if_neg hb, if_neg harm, if_pos hs]
      rw [hmv, ddDragTrack_dropTargetId] at hd
      cases hfd : findDropTarget env e.pointed with
      | none =>
        rw [hfd] at hd
        exact Option.noConfusion hd
      | some item =>
        rw [hfd] at hd
        simp only [Option.map_some'] at hd
        exact ⟨item, rfl, Option.some.inj hd⟩
  · intro env w ids dst nm h
    unfold ddOnMouseUp at h
    split at h
    · next hstate hdrop =>
      simp only at h
      have := DropAction.rowDrop.inj h
      exact ⟨by simp_all, by rw [hdrop, this.2.1]⟩
    · split at h
      · exact DropAction.noConfusion h
      · exact DropAction.noConfusion h
    · exact DropAction.noConfusion h

/-- Witness for C7 (amended): the concrete resolution of the folder row
of `ddEnvUnselAll` satisfies every published property. -/
theorem dropTarget_validity_witness :
    findDropTarget ddEnvUnselAll (some ⟨true, 0⟩) = some itemA ∧
    itemA.itemType = ItemType.folder ∧
    ddEnvUnselAll.isItemSelected itemA.id = false :=
  ⟨by decide,
   (dropTarget_validity.1 ddEnvUnselAll (some ⟨true, 0⟩) itemA
     (by decide)).1,
   (dropTarget_validity.1 ddEnvUnselAll (some ⟨true, 0⟩) itemA
     (by decide)).2.1⟩

/-! ### Claim theorems: drag arming requires pre-selection (C8) -/

/-- C8.  A mousedown whose resolved item is not currently selected
leaves the IDLE machine exactly as it was: no ARMED transition, no
document listeners, no session. -/
theorem ddOnMouseDown_requires_selected (env : DragEnv)
    (e : DragMouseDown) (w : DragWorld)
    (hidle : w.state = .idle)
    (hunsel : ∀ item, resolveMouseDownItem env e = some item →
      env.isItemSelected item.id = false) :
    ddOnMouseDown env e w = w := by
  unfold ddOnMouseDown
  by_cases h1 : e.button ≠ 0 ∨ ¬env.enabled
  · rw [if_pos h1]
  · rw [if_neg h1, if_neg (not_not_intro hidle)]
    by_cases h3 : e.targetInteractive
    · rw [if_pos h3]
    · rw [if_neg h3]
      cases hres : resolveMouseDownItem env e with
      | none => simp only [hres]
      | some item =>
        simp only [hres]
        rw [if_pos (by simp [hunsel item hres])]

/-- Witness for C8: pressing the (unselected) folder row of
`ddEnvUnselAll` does nothing. -/
theorem ddOnMouseDown_requires_selected_witness :
    ddWorld0.state = .idle ∧
    resolveMouseDownItem ddEnvUnselAll ⟨0, false, some ⟨true, 0⟩, 5, 5⟩ =
      some itemA ∧
    ddOnMouseDown ddEnvUnselAll ⟨0, false, some ⟨true, 0⟩, 5, 5⟩ ddWorld0 =
      ddWorld0 :=
  ⟨rfl, by decide,
   ddOnMouseDown_requires_selected ddEnvUnselAll
     ⟨0, false, some ⟨true, 0⟩, 5, 5⟩ ddWorld0 rfl
     (fun item h => by
       have h2 : some itemA = some item := h
       injection h2 with h3
       rw [← h3]
       rfl)⟩
